import Mathlib

/-!
Shallow embedding of the analytics aggregation engine of the Electohub
backend (flat-file server, `src/unnamed/part_001`), together with proofs
of the testable properties stated in the specification.

Modelling conventions:
* JS `Date` values used only for comparison/arithmetic are epoch
  milliseconds, modelled as `Int`.
* JS numbers are modelled as `ℚ`; the one place where the code can divide
  by zero (producing `NaN`) is modelled with an `Option ℚ` valued division
  (`none` = `NaN`).
* `order.createdAt || order.date` is collapsed to a single timestamp
  field, and `order.total || 0` to a plain rational field (`|| 0` is the
  identity on numbers, and the stores always populate these fields).
-/

namespace Electohub



/-- `24 * 60 * 60 * 1000`, one day of milliseconds as used throughout the
source (`30 * 24 * 60 * 60 * 1000` etc.). -/
def dayMs : Int := 86400000

/-- An order as read from the JSON store: the fields the analytics helpers
touch (`userId`, `total`, `status`, `createdAt`). -/
structure Order where
  userId : String
  total : ℚ
  status : String
  /-- Epoch milliseconds, the numeric value of the parsed JS `Date`. -/
  createdAt : Int
deriving DecidableEq

/-- The filter used by `calculateTotalRevenue` / `calculateAverageOrderValue`:
`orderDate >= start && orderDate <= end && order.status === 'delivered'`.
Note both comparisons are inclusive. -/
def isDeliveredInRange (s e : Int) (o : Order) : Bool :=
  decide (s ≤ o.createdAt) && decide (o.createdAt ≤ e) && decide (o.status = "delivered")

/-- `calculateTotalRevenue(orders, start, end)`: sum of `total` over orders
passing `isDeliveredInRange`. -/
def calculateTotalRevenue (orders : List Order) (s e : Int) : ℚ :=
  ((orders.filter (isDeliveredInRange s e)).map Order.total).sum

/-- `calculateAverageOrderValue(orders, start, end)`: `0` when no order
matches, otherwise total divided by count.  The codomain is `Option ℚ`
(`none` = JS `NaN`), and the division is the `NaN`-aware one, so the
guard in the source is visible in the model. -/
def jsDiv (a b : ℚ) : Option ℚ :=
  if b = 0 then none else some (a / b)

def calculateAverageOrderValue (orders : List Order) (s e : Int) : Option ℚ :=
  let filteredOrders := orders.filter (isDeliveredInRange s e)
  if filteredOrders.length = 0 then some 0
  else jsDiv ((filteredOrders.map Order.total).sum) filteredOrders.length

/-- The `avgOrderValue` computed by the admin dashboard-stats handler:
`orders.length > 0 ? totalRevenue / orders.filter(delivered).length : 0`,
where `totalRevenue` sums `total` over delivered orders.  The guard tests
the length of `orders`, but the divisor is the number of *delivered*
orders. -/
def adminDashboardAvgOrderValue (orders : List Order) : Option ℚ :=
  let delivered := orders.filter (fun o => decide (o.status = "delivered"))
  let totalRevenue : ℚ := (delivered.map Order.total).sum
  if orders.length > 0 then jsDiv totalRevenue delivered.length else some 0

/-- The `Revenue` dataset of `generateTrendData` for the `daily` period:
30 windows `[start + i·day, start + (i+1)·day]` (the loop runs
`i = dataPoints-1` down to `0`, hence the `reverse`), each summed with
`calculateTotalRevenue`, i.e. with bounds inclusive at both ends.
`setDate(getDate() + i)` is modelled as adding `i` days of milliseconds. -/
def trendRevenueData (orders : List Order) (start : Int) : List ℚ :=
  ((List.range 30).reverse).map fun (i : ℕ) =>
    calculateTotalRevenue orders (start + (i : Int) * dayMs) (start + ((i : Int) + 1) * dayMs)

/-! ### Forecast estimator (`generateForecastData`) -/

/-- The four series returned by `generateForecastData` (the constant
`metrics` block is omitted: the claims are about the series). -/
structure ForecastData where
  historical : List ℚ
  forecast : List ℚ
  confidenceUpper : List ℚ
  confidenceLower : List ℚ

/-- `generateForecastData`, with the `Math.random()` draws passed in
explicitly: `histRand i` is the draw for the `i`-th historical point,
`growthRand i` the draw for the `i`-th forecast point (the source samples
a fresh `growth = 1 + Math.random() * 0.1` inside the forecast loop).
The source loop runs `i = 1..3` with `forecastValue = lastValue *
growth^i`; here the list index `k = i - 1`. -/
def generateForecastData (histRand growthRand : ℕ → ℚ) : ForecastData :=
  let historical := (List.range 6).map fun (i : ℕ) => 20000 + histRand i * 5000
  let lastValue := (historical.getLast?).getD 0
  let forecast := (List.range 3).map fun (i : ℕ) =>
    lastValue * (1 + growthRand i * (1 / 10)) ^ (i + 1)
  { historical := historical
    forecast := forecast
    confidenceUpper := forecast.map fun v => v * (11 / 10)
    confidenceLower := forecast.map fun v => v * (9 / 10) }

/-! ### The flat-file data-access layer (`readData`) -/

/-- `readData(fileName)`: the source wraps `fs.readFileSync` +
`JSON.parse` in `try { ... } catch (error) { console.error(...); return
[]; }`.  The outcome of the read+parse is passed in as an `Except`
(`Except.error` = the read threw); the function's result is what the
caller of `readData` observes. -/
def readData {α : Type} (raw : Except String (List α)) : Except String (List α) :=
  match raw with
  | Except.ok v => Except.ok v
  | Except.error _ => Except.ok []

/-! ### CSV rendering (`convertToCSV`) -/

/-- A field name or (already stringified) field value. -/
abbrev Field := List Char

/-- A flat record, as a JS object: field names with values, in insertion
order (JS object keys are distinct). -/
abbrev CSVRecord := List (Field × Field)

/-- The regex test `/[,"\n]/.test(escaped)`. -/
def needsQuoting (s : List Char) : Bool :=
  s.any fun c => c = ',' || c = '"' || c = '\n'

/-- `('' + value).replace(/"/g, '""')`: double every double-quote. -/
def doubleQuotes : List Char → List Char
  | [] => []
  | c :: cs => if c = '"' then '"' :: '"' :: doubleQuotes cs else c :: doubleQuotes cs

/-- One CSV cell: escape quotes, then wrap in quotes exactly when the
escaped text still contains a comma, quote or newline. -/
def escapeField (s : List Char) : List Char :=
  let escaped := doubleQuotes s
  if needsQuoting escaped then '"' :: (escaped ++ ['"']) else escaped

/-- `row[header]`, stringified: JS yields `undefined` for a missing key,
which `'' + value` renders as the text `undefined`. -/
def getField (r : CSVRecord) (h : Field) : Field :=
  match r.find? (fun p => decide (p.1 = h)) with
  | some p => p.2
  | none => "undefined".data

/-- JS `Array.prototype.join(sep)`. -/
def joinSep (sep : List Char) : List (List Char) → List Char
  | [] => []
  | [x] => x
  | x :: y :: xs => x ++ (sep ++ joinSep sep (y :: xs))

/-- `convertToCSV(data)`: empty input gives the empty string; otherwise a
header row from the first record's field names, then one comma-joined row
of escaped cells per record, all joined with newlines. -/
def convertToCSV (data : List CSVRecord) : List Char :=
  match data with
  | [] => []
  | r0 :: _ =>
      let headers := r0.map Prod.fst
      joinSep ['\n'] (joinSep [','] headers ::
        data.map fun r => joinSep [','] (headers.map fun h => escapeField (getField r h)))

/-! ### Segmentation engine (`segmentCustomers`) -/

/-- `customerSpending[userId] = (customerSpending[userId] || 0) + total`:
add to an existing key or append a new one (JS objects keep insertion
order for these keys). -/
def addSpend : List (String × ℚ) → String → ℚ → List (String × ℚ)
  | [], u, t => [(u, t)]
  | (k, v) :: rest, u, t =>
      if k = u then (k, v + t) :: rest else (k, v) :: addSpend rest u t

/-- One step of the `orders.forEach` accumulation: skipped when
`order.userId` is falsy (empty string). -/
def spendStep (acc : List (String × ℚ)) (o : Order) : List (String × ℚ) :=
  if o.userId = "" then acc else addSpend acc o.userId o.total

/-- Lifetime spend per customer, keyed by `userId`. -/
def customerSpending (orders : List Order) : List (String × ℚ) :=
  orders.foldl spendStep []

/-- The sort comparator `([,a],[,b]) => b - a`: descending by spend
(`mergeSort` is stable, as `Array.prototype.sort` is required to be). -/
def spendDescending (a b : String × ℚ) : Bool := decide (b.2 ≤ a.2)

/-- `sortedCustomers`: entries sorted descending by spend, keys only. -/
def sortedCustomers (orders : List Order) : List String :=
  (((customerSpending orders).mergeSort spendDescending).map Prod.fst)

/-- The three spend-tier membership lists built by `segmentCustomers`. -/
structure SpendSegments where
  highValue : List String
  mediumValue : List String
  lowValue : List String

/-- `Math.ceil(sortedCustomers.length * 0.2)` (exact rational model of
the float arithmetic). -/
def highValueCount (n : ℕ) : ℕ := Nat.ceil ((n : ℚ) * (2 / 10))

/-- `Math.ceil(sortedCustomers.length * 0.6)`. -/
def mediumValueCount (n : ℕ) : ℕ := Nat.ceil ((n : ℚ) * (6 / 10))

/-- The spend-tier part of `segmentCustomers`:
`slice(0, hc)`, `slice(hc, hc + mc)`, `slice(hc + mc)`. -/
def segmentBySpending (orders : List Order) : SpendSegments :=
  let sorted := sortedCustomers orders
  let hc := highValueCount sorted.length
  let mc := mediumValueCount sorted.length
  { highValue := sorted.take hc
    mediumValue := (sorted.drop hc).take mc
    lowValue := sorted.drop (hc + mc) }

/-- The number of distinct customers with at least one order: distinct
non-empty `userId` values occurring among the orders (the spec-side
measuring stick for the partition-size property). -/
def distinctCustomerIds (orders : List Order) : List String :=
  (orders.filterMap fun o => if o.userId = "" then none else some o.userId).dedup

/-- The spend the segmentation ranked a customer by:
`customerSpending[userId]` (0 when absent). -/
def spendOf (orders : List Order) (uid : String) : ℚ :=
  match (customerSpending orders).find? (fun p => decide (p.1 = uid)) with
  | some p => p.2
  | none => 0

/-- Ten customers with linearly decreasing spends (one order each), the
scenario of the segmentation claim. -/
def ordersTen : List Order :=
  [⟨"u1", 1000, "delivered", 0⟩, ⟨"u2", 900, "delivered", 0⟩, ⟨"u3", 800, "delivered", 0⟩,
   ⟨"u4", 700, "delivered", 0⟩, ⟨"u5", 600, "delivered", 0⟩, ⟨"u6", 500, "delivered", 0⟩,
   ⟨"u7", 400, "delivered", 0⟩, ⟨"u8", 300, "delivered", 0⟩, ⟨"u9", 200, "delivered", 0⟩,
   ⟨"u10", 100, "delivered", 0⟩]

/-! ### Recency segmentation (the second half of `segmentCustomers`) -/

/-- A parsed JS `Date`, restricted to the fields the analytics code
reads: the calendar year/month (for cohort keys) and the epoch
milliseconds (for every comparison and subtraction).  The calendar
decomposition of `ms` is not needed by any claim, so the two views are
kept as independent fields. -/
structure JSDate where
  year : Int
  /-- `getMonth()`, 0-based. -/
  month : Nat
  ms : Int
deriving DecidableEq

/-- A user as read from the JSON store: `_id` and `createdAt`. -/
structure User where
  _id : String
  createdAt : JSDate
deriving DecidableEq

/-- The most recent order date of a user:
`orders.filter(o => o.userId === id).sort((a,b) => dateB - dateA)[0]`,
then its date; `none` when the user has no orders. -/
def lastOrderDate (orders : List Order) (uid : String) : Option Int :=
  (((orders.filter fun o => decide (o.userId = uid)).mergeSort
      (fun a b => decide (b.createdAt ≤ a.createdAt))).head?).map Order.createdAt

/-- The three recency membership lists built by `segmentCustomers`. -/
structure RecencySegments where
  newUsers : List String
  atRisk : List String
  dormant : List String

/-- `lastOrderDate < sixtyDaysAgo && lastOrderDate >= oneTwentyDaysAgo`. -/
def isAtRisk (now d : Int) : Bool :=
  decide (d < now - 60 * dayMs) && decide (now - 120 * dayMs ≤ d)

/-- The `else if (lastOrderDate < oneTwentyDaysAgo)` branch. -/
def isDormant (now d : Int) : Bool :=
  !(isAtRisk now d) && decide (d < now - 120 * dayMs)

/-- The recency part of `segmentCustomers`: the `users.forEach` loop
pushes each user's `_id` independently onto the three lists, so each list
is a filter of the users in order; users without orders never reach the
at-risk/dormant branches. -/
def segmentByRecency (users : List User) (orders : List Order) (now : Int) : RecencySegments :=
  { newUsers :=
      (users.filter fun u => decide (now - 30 * dayMs ≤ u.createdAt.ms)).map User._id
    atRisk :=
      (users.filter fun u =>
        ((lastOrderDate orders u._id).map (isAtRisk now)).getD false).map User._id
    dormant :=
      (users.filter fun u =>
        ((lastOrderDate orders u._id).map (isDormant now)).getD false).map User._id }

/-! ### Cohort retention (`analyzeRetention`) -/

/-- The per-cohort accumulator object
`{ totalUsers, month1, month2, month3, month6, month12 }`, keyed by the
join year/month. -/
structure CohortAcc where
  year : Int
  month : Nat
  totalUsers : Nat
  m1 : Nat
  m2 : Nat
  m3 : Nat
  m6 : Nat
  m12 : Nat
deriving DecidableEq

/-- `Math.floor((firstOrderDate - joinDate) / (30*24*60*60*1000))`:
floor division of the millisecond delta by 30-day months. -/
def monthsSinceJoin (firstOrder join : Int) : Int :=
  Int.fdiv (firstOrder - join) (30 * dayMs)

/-- `orders.filter(o => o.userId === user._id)[0]`: the user's first
order in *array* order (not the earliest by date), then its date. -/
def firstOrderDateOf (orders : List Order) (uid : String) : Option Int :=
  ((orders.filter fun o => decide (o.userId = uid)).head?).map Order.createdAt

/-- The increment `if (monthsSinceJoin <= k) cohort.month_k++`, zero when
the user has no orders. -/
def horizonInc (d : Option Int) (k : Int) : Nat :=
  match d with
  | none => 0
  | some v => if v ≤ k then 1 else 0

/-- Count one user into a cohort: `totalUsers++` and the five cumulative
horizon increments. -/
def bumpCohort (c : CohortAcc) (d : Option Int) : CohortAcc :=
  { c with
    totalUsers := c.totalUsers + 1
    m1 := c.m1 + horizonInc d 1
    m2 := c.m2 + horizonInc d 2
    m3 := c.m3 + horizonInc d 3
    m6 := c.m6 + horizonInc d 6
    m12 := c.m12 + horizonInc d 12 }

/-- The fresh all-zero cohort object created when the key is absent. -/
def initCohort (y : Int) (m : Nat) : CohortAcc := ⟨y, m, 0, 0, 0, 0, 0, 0⟩

/-- Update the association list of cohorts at key `(y, m)`, creating the
entry at the end when absent (JS object key insertion order). -/
def updateCohorts : List CohortAcc → Int → Nat → Option Int → List CohortAcc
  | [], y, m, d => [bumpCohort (initCohort y m) d]
  | c :: cs, y, m, d =>
      if c.year = y ∧ c.month = m then bumpCohort c d :: cs
      else c :: updateCohorts cs y m d

/-- One step of the `users.forEach` loop of `analyzeRetention`. -/
def retentionStep (orders : List Order) (acc : List CohortAcc) (u : User) : List CohortAcc :=
  updateCohorts acc u.createdAt.year u.createdAt.month
    ((firstOrderDateOf orders u._id).map fun f => monthsSinceJoin f u.createdAt.ms)

/-- The cohort accumulators after processing all users. -/
def analyzeRetentionCohorts (users : List User) (orders : List Order) : List CohortAcc :=
  users.foldl (retentionStep orders) []

/-- `.toFixed(1)` on a percentage, kept numeric: round to one decimal. -/
def toFixed1 (q : ℚ) : ℚ := ((round (q * 10) : ℤ) : ℚ) / 10

/-- One row of the returned cohort table: the key, the cohort size and
the five retention percentages. -/
structure CohortRow where
  year : Int
  month : Nat
  totalUsers : Nat
  month1 : ℚ
  month2 : ℚ
  month3 : ℚ
  month6 : ℚ
  month12 : ℚ
deriving DecidableEq

/-- `analyzeRetention(users, orders)`: the cohort table with percentages
`(count / totalUsers) * 100`, one decimal. -/
def analyzeRetention (users : List User) (orders : List Order) : List CohortRow :=
  (analyzeRetentionCohorts users orders).map fun c =>
    { year := c.year
      month := c.month
      totalUsers := c.totalUsers
      month1 := toFixed1 ((c.m1 : ℚ) / (c.totalUsers : ℚ) * 100)
      month2 := toFixed1 ((c.m2 : ℚ) / (c.totalUsers : ℚ) * 100)
      month3 := toFixed1 ((c.m3 : ℚ) / (c.totalUsers : ℚ) * 100)
      month6 := toFixed1 ((c.m6 : ℚ) / (c.totalUsers : ℚ) * 100)
      month12 := toFixed1 ((c.m12 : ℚ) / (c.totalUsers : ℚ) * 100) }

/-- The loop invariant of the cohort accumulation: every cohort object
has been bumped at least once, and the five cumulative counters form a
chain. -/
def CohortInv (c : CohortAcc) : Prop :=
  1 ≤ c.totalUsers ∧ c.m1 ≤ c.m2 ∧ c.m2 ≤ c.m3 ∧ c.m3 ≤ c.m6 ∧ c.m6 ≤ c.m12

/-! ### A standard CSV parser, for the round-trip property -/

/-- Character-level CSV parser state machine: `inQ` is the inside-quotes
flag, `field`/`row` the current cell and row, `acc` the finished rows.
Inside quotes, `""` is an escaped quote and a lone `"` closes the cell;
outside quotes, `,` ends a cell, a newline ends a row and `"` opens a
quoted section. -/
def parseCSVAux : List Char → Bool → List Char → List (List Char) →
    List (List (List Char)) → List (List (List Char))
  | [], _, field, row, acc => acc ++ [row ++ [field]]
  | c :: cs, true, field, row, acc =>
      if c = '"' then
        if cs.head? = some '"' then parseCSVAux cs.tail true (field ++ ['"']) row acc
        else parseCSVAux cs false field row acc
      else parseCSVAux cs true (field ++ [c]) row acc
  | c :: cs, false, field, row, acc =>
      if c = ',' then parseCSVAux cs false [] (row ++ [field]) acc
      else if c = '\n' then parseCSVAux cs false [] [] (acc ++ [row ++ [field]])
      else if c = '"' then parseCSVAux cs true field row acc
      else parseCSVAux cs false (field ++ [c]) row acc
termination_by l _ _ _ _ => l.length
decreasing_by
  all_goals simp_wf
  all_goals omega

/-- Parse a CSV text into its rows of cells. -/
def parseCSV (s : List Char) : List (List (List Char)) :=
  parseCSVAux s false [] [] []

/-! ### Theorems -/

/-! ### Basic rewriting lemmas -/

theorem isDeliveredInRange_eq_true (s e : Int) (o : Order) :
    isDeliveredInRange s e o = true ↔
      (s ≤ o.createdAt ∧ o.createdAt ≤ e) ∧ o.status = "delivered" := by
  simp [isDeliveredInRange, and_assoc]

theorem calculateTotalRevenue_cons (o : Order) (t : List Order) (s e : Int) :
    calculateTotalRevenue (o :: t) s e =
      (if (s ≤ o.createdAt ∧ o.createdAt ≤ e) ∧ o.status = "delivered" then o.total else 0)
        + calculateTotalRevenue t s e := by
  by_cases h : (s ≤ o.createdAt ∧ o.createdAt ≤ e) ∧ o.status = "delivered"
  · rw [if_pos h]
    have hb : isDeliveredInRange s e o = true := (isDeliveredInRange_eq_true s e o).mpr h
    simp [calculateTotalRevenue, List.filter_cons, hb]
  · rw [if_neg h]
    have hb : ¬ isDeliveredInRange s e o = true := fun hc =>
      h ((isDeliveredInRange_eq_true s e o).mp hc)
    simp [calculateTotalRevenue, List.filter_cons, hb]

theorem calculateTotalRevenue_nil (s e : Int) :
    calculateTotalRevenue [] s e = 0 := rfl

/-- Summing a pointwise sum of two functions over a mapped list splits. -/
theorem sum_map_add_split (l : List ℕ) (f g : ℕ → ℚ) :
    (l.map (fun i => f i + g i)).sum = (l.map f).sum + (l.map g).sum := by
  induction l with
  | nil => simp
  | cons a t ih => simp [ih]; ring

/-- Single-record bucket counting: a timestamp that avoids the interior
bucket boundaries `s + k·day` (`1 ≤ k ≤ n-1`) lands in exactly one of the
`n` inclusive one-day windows, so the indicator sum collapses to the
whole-range indicator.  Stated for `n + 1` windows so that induction
starts at one window. -/
theorem bucket_indicator_sum (x : ℚ) (t : Int) (P : Prop) [Decidable P] (s : Int)
    (n : ℕ)
    (hb : P → ∀ k : ℕ, k < n + 1 → 1 ≤ k → ¬ t = s + (k : Int) * dayMs) :
    ((List.range (n + 1)).map fun (i : ℕ) =>
        if (s + (i : Int) * dayMs ≤ t ∧ t ≤ s + ((i : Int) + 1) * dayMs) ∧ P then x else 0).sum
      = if (s ≤ t ∧ t ≤ s + ((n : Int) + 1) * dayMs) ∧ P then x else 0 := by
  by_cases hP : P
  · induction n with
    | zero =>
      have hr : List.range 1 = [0] := rfl
      rw [hr]
      simp only [List.map_cons, List.map_nil, List.sum_cons, List.sum_nil, add_zero,
        Nat.cast_zero, zero_mul, zero_add]
    | succ m ih =>
      rw [List.range_succ, List.map_append, List.sum_append]
      have hbm : P → ∀ k : ℕ, k < m + 1 → 1 ≤ k → ¬ t = s + (k : Int) * dayMs := by
        intro hp k hk h1
        exact hb hp k (Nat.lt_succ_of_lt hk) h1
      rw [ih hbm]
      have hne : ¬ t = s + ((m : Int) + 1) * dayMs := by
        have := hb hP (m + 1) (Nat.lt_succ_self _) (Nat.le_add_left 1 m)
        push_cast at this ⊢
        exact this
      simp only [List.map_cons, List.map_nil, List.sum_cons, List.sum_nil, add_zero]
      push_cast
      by_cases hle : t ≤ s + ((m : Int) + 1) * dayMs
      · have hlt : t < s + ((m : Int) + 1) * dayMs := lt_of_le_of_ne hle hne
        have h2 : ¬ ((s + ((m : Int) + 1) * dayMs ≤ t ∧
            t ≤ s + (((m : Int) + 1) + 1) * dayMs) ∧ P) := by
          rintro ⟨⟨h3, _⟩, _⟩
          exact absurd (lt_of_le_of_lt h3 hlt) (lt_irrefl _)
        rw [if_neg h2, add_zero]
        have hup : t ≤ s + (((m : Int) + 1) + 1) * dayMs := by
          have hd : (0 : Int) < dayMs := by norm_num [dayMs]
          nlinarith
        by_cases hs : s ≤ t
        · rw [if_pos ⟨⟨hs, hle⟩, hP⟩, if_pos ⟨⟨hs, hup⟩, hP⟩]
        · rw [if_neg (by rintro ⟨⟨h4, _⟩, _⟩; exact hs h4),
            if_neg (by rintro ⟨⟨h4, _⟩, _⟩; exact hs h4)]
      · have hgt : s + ((m : Int) + 1) * dayMs < t := lt_of_not_le hle
        rw [if_neg (by rintro ⟨⟨_, h4⟩, _⟩; exact hle h4), zero_add]
        have hs : s ≤ t := by
          have hd : (0 : Int) < dayMs := by norm_num [dayMs]
          nlinarith
        by_cases hup : t ≤ s + (((m : Int) + 1) + 1) * dayMs
        · rw [if_pos ⟨⟨le_of_lt hgt, hup⟩, hP⟩, if_pos ⟨⟨hs, hup⟩, hP⟩]
        · rw [if_neg (by rintro ⟨⟨_, h4⟩, _⟩; exact hup h4),
            if_neg (by rintro ⟨⟨_, h4⟩, _⟩; exact hup h4)]
  · simp [hP]

/-- Conservation of revenue across the daily trend buckets, provided no
delivered order sits exactly on one of the 29 interior one-day bucket
boundaries (where the inclusive interval membership of
`calculateTotalRevenue` counts an order twice). -/
theorem bucketSum_eq (s : Int) (orders : List Order)
    (hb : ∀ o ∈ orders, o.status = "delivered" →
      ∀ k : ℕ, k < 30 → 1 ≤ k → ¬ o.createdAt = s + (k : Int) * dayMs) :
    ((List.range 30).map fun (i : ℕ) =>
        calculateTotalRevenue orders (s + (i : Int) * dayMs) (s + ((i : Int) + 1) * dayMs)).sum
      = calculateTotalRevenue orders s (s + 30 * dayMs) := by
  induction orders with
  | nil => simp [calculateTotalRevenue]
  | cons o t ih =>
    have hbt : ∀ p ∈ t, p.status = "delivered" →
        ∀ k : ℕ, k < 30 → 1 ≤ k → ¬ p.createdAt = s + (k : Int) * dayMs :=
      fun p hp => hb p (List.mem_cons_of_mem _ hp)
    have hbo : o.status = "delivered" →
        ∀ k : ℕ, k < 30 → 1 ≤ k → ¬ o.createdAt = s + (k : Int) * dayMs :=
      hb o (List.mem_cons_self _ _)
    simp only [calculateTotalRevenue_cons]
    rw [sum_map_add_split, ih hbt]
    have h30 : (30 : ℕ) = 29 + 1 := rfl
    rw [h30]
    have hind := bucket_indicator_sum o.total o.createdAt (o.status = "delivered") s 29
      (fun hp k hk => hbo hp k (by omega))
    rw [hind]
    have hc : ((29 : ℕ) : Int) + 1 = 30 := by norm_num
    rw [hc]

theorem trendRevenueData_sum_eq (orders : List Order) (s : Int)
    (hb : ∀ o ∈ orders, o.status = "delivered" →
      ∀ k : ℕ, k < 30 → 1 ≤ k → ¬ o.createdAt = s + (k : Int) * dayMs) :
    (trendRevenueData orders s).sum = calculateTotalRevenue orders s (s + 30 * dayMs) := by
  rw [trendRevenueData, List.map_reverse, List.sum_reverse]
  exact bucketSum_eq s orders hb

/-- C1 counterexample: a delivered order whose timestamp is exactly one
day after `start` lies on the shared boundary of the first two daily
buckets.  Because `calculateTotalRevenue` uses inclusive bounds on both
ends (not the half-open membership the claim states), the order is
counted in two buckets and the bucketed sum is double the unbucketed
total over the whole range. -/
theorem trend_conservation_counterexample :
    (trendRevenueData [⟨"u1", 100, "delivered", 86400000⟩] 0).sum = 200 ∧
    calculateTotalRevenue [⟨"u1", 100, "delivered", 86400000⟩] 0 (30 * dayMs) = 100 := by
  have hr : List.range 30 =
      [0, 1, 2, 3, 4, 5, 6, 7, 8, 9, 10, 11, 12, 13, 14, 15, 16, 17, 18, 19, 20, 21, 22,
        23, 24, 25, 26, 27, 28, 29] := rfl
  constructor
  · simp [trendRevenueData, hr, calculateTotalRevenue, isDeliveredInRange, dayMs,
      List.filter_cons, List.filter_nil]
    norm_num
  · simp [calculateTotalRevenue, isDeliveredInRange, dayMs, List.filter_cons, List.filter_nil]

/-- C1 (amended): each order is counted once per daily bucket whose
inclusive interval `[start + i·day, start + (i+1)·day]` contains its
timestamp; when no delivered order lies exactly on an interior bucket
boundary `start + k·day` (`1 ≤ k ≤ 29`), every order is counted at most
once and the sum of per-bucket revenue over the 30 daily buckets equals
`calculateTotalRevenue` over the whole covered range
`[start, start + 30·day]`. -/
theorem trend_conservation_off_boundary (orders : List Order) (start : Int)
    (hb : ∀ o ∈ orders, o.status = "delivered" →
      ∀ k : ℕ, k < 30 → 1 ≤ k → ¬ o.createdAt = start + (k : Int) * dayMs) :
    (trendRevenueData orders start).sum
      = calculateTotalRevenue orders start (start + 30 * dayMs) :=
  trendRevenueData_sum_eq orders start hb

/-- Witness for `trend_conservation_off_boundary`: one delivered order at
half a day past `start`, off every bucket boundary. -/
theorem trend_conservation_off_boundary_witness :
    (trendRevenueData [⟨"u1", 100, "delivered", 43200000⟩] 0).sum
      = calculateTotalRevenue [⟨"u1", 100, "delivered", 43200000⟩] 0 (30 * dayMs) :=
  trend_conservation_off_boundary [⟨"u1", 100, "delivered", 43200000⟩] 0 (by
    intro o ho hst k hk h1
    simp only [List.mem_singleton] at ho
    have hca : o.createdAt = 43200000 := by rw [ho]
    simp only [dayMs, hca]
    omega)

/-- C4: `calculateAverageOrderValue` returns `0` (not `NaN`, not an
error) on a range with no delivered orders, and the dashboard revenue is
`0` there; but the admin dashboard-stats handler, on a store holding one
pending and no delivered order, divides `0` by the delivered count `0`
and produces `NaN` (modelled as `none`) — its guard tests
`orders.length`, not the number of delivered orders. -/
theorem avgOrderValue_zero_delivered_eval :
    calculateAverageOrderValue [⟨"u2", 50, "pending", 0⟩] 0 (30 * dayMs) = some 0 ∧
    calculateTotalRevenue [⟨"u2", 50, "pending", 0⟩] 0 (30 * dayMs) = 0 ∧
    adminDashboardAvgOrderValue [⟨"u2", 50, "pending", 0⟩] = none := by
  refine ⟨?_, ?_, ?_⟩
  · simp [calculateAverageOrderValue, isDeliveredInRange, dayMs,
      List.filter_cons, List.filter_nil]
  · simp [calculateTotalRevenue, isDeliveredInRange, dayMs,
      List.filter_cons, List.filter_nil]
  · simp [adminDashboardAvgOrderValue, jsDiv, List.filter_cons, List.filter_nil]

/-- C5: whenever the random draws lie in `[0, 1)` (the contract of
`Math.random`), the forecast has exactly 3 points, point `k` is the last
historical value times `g^(k+1)` for a sampled growth factor
`g ∈ [1, 1.1)`, and the confidence bounds are the symmetric ±10% bands
around the forecast points. -/
theorem forecast_shape (histRand growthRand : ℕ → ℚ)
    (hg : ∀ i, 0 ≤ growthRand i ∧ growthRand i < 1) :
    (generateForecastData histRand growthRand).forecast.length = 3 ∧
    (∀ k : ℕ, k < 3 → ∃ g : ℚ, 1 ≤ g ∧ g < 11 / 10 ∧
      (generateForecastData histRand growthRand).forecast.getD k 0
        = ((generateForecastData histRand growthRand).historical.getLast?).getD 0
            * g ^ (k + 1)) ∧
    (generateForecastData histRand growthRand).confidenceUpper
      = (generateForecastData histRand growthRand).forecast.map (fun v => v * (11 / 10)) ∧
    (generateForecastData histRand growthRand).confidenceLower
      = (generateForecastData histRand growthRand).forecast.map (fun v => v * (9 / 10)) := by
  refine ⟨by simp [generateForecastData], ?_, rfl, rfl⟩
  intro k hk
  refine ⟨1 + growthRand k * (1 / 10), ?_, ?_, ?_⟩
  · have := (hg k).1
    linarith
  · have := (hg k).2
    linarith
  · have hr3 : List.range 3 = [0, 1, 2] := rfl
    interval_cases k <;> simp [generateForecastData, hr3]

/-- Witness for `forecast_shape` at concrete draws `1/2` and `1/3`. -/
theorem forecast_shape_witness :
    (generateForecastData (fun _ => 1 / 2) (fun _ => 1 / 3)).forecast.length = 3 ∧
    (generateForecastData (fun _ => 1 / 2) (fun _ => 1 / 3)).confidenceUpper
      = (generateForecastData (fun _ => 1 / 2) (fun _ => 1 / 3)).forecast.map
          (fun v => v * (11 / 10)) ∧
    (generateForecastData (fun _ => 1 / 2) (fun _ => 1 / 3)).confidenceLower
      = (generateForecastData (fun _ => 1 / 2) (fun _ => 1 / 3)).forecast.map
          (fun v => v * (9 / 10)) := by
  have h := forecast_shape (fun _ => 1 / 2) (fun _ => 1 / 3)
    (fun i => ⟨by norm_num, by norm_num⟩)
  exact ⟨h.1, h.2.2.1, h.2.2.2⟩

/-- C9 counterexample: a failing read (`ENOENT`) is not propagated —
`readData` catches it and substitutes the empty collection. -/
theorem readData_swallows_error :
    readData (Except.error "ENOENT") = Except.ok ([] : List Order) ∧
    ¬ readData (Except.error "ENOENT") = (Except.error "ENOENT" : Except String (List Order)) := by
  exact ⟨rfl, by simp [readData]⟩

/-- C9 (amended): whenever the underlying read fails, `readData` catches
the error and returns an empty collection in an `ok` result; callers see
an empty dataset, never the failure. -/
theorem readData_error_yields_empty {α : Type} (e : String) :
    readData (Except.error e) = Except.ok ([] : List α) := rfl

/-- C10: exporting an empty record list as CSV yields the empty string —
no header row, no error. -/
theorem convertToCSV_nil : convertToCSV [] = [] := rfl

theorem mem_map_fst_addSpend (acc : List (String × ℚ)) (u : String) (t : ℚ) (k : String) :
    k ∈ (addSpend acc u t).map Prod.fst ↔ k ∈ acc.map Prod.fst ∨ k = u := by
  induction acc with
  | nil => simp [addSpend]
  | cons p rest ih =>
    obtain ⟨pk, pv⟩ := p
    by_cases h : pk = u
    · subst h
      simp [addSpend]
      tauto
    · simp [addSpend, h, ih]
      tauto

theorem nodup_map_fst_addSpend (acc : List (String × ℚ)) (u : String) (t : ℚ)
    (hnd : (acc.map Prod.fst).Nodup) : ((addSpend acc u t).map Prod.fst).Nodup := by
  induction acc with
  | nil => simp [addSpend]
  | cons p rest ih =>
    obtain ⟨pk, pv⟩ := p
    simp only [List.map_cons, List.nodup_cons] at hnd
    by_cases h : pk = u
    · subst h
      simp only [addSpend, eq_self_iff_true, if_true, List.map_cons, List.nodup_cons]
      exact hnd
    · simp only [addSpend, h, if_false, List.map_cons, List.nodup_cons]
      refine ⟨?_, ih hnd.2⟩
      rw [mem_map_fst_addSpend]
      rintro (hmem | hequ)
      · exact hnd.1 hmem
      · exact h hequ

theorem mem_foldl_spendStep (l : List Order) :
    ∀ (acc : List (String × ℚ)) (k : String),
      (k ∈ ((l.foldl spendStep acc).map Prod.fst)
        ↔ k ∈ acc.map Prod.fst ∨ ∃ o ∈ l, o.userId = k ∧ ¬ o.userId = "") := by
  induction l with
  | nil => simp
  | cons o t ih =>
    intro acc k
    rw [List.foldl_cons, ih]
    by_cases h : o.userId = ""
    · simp only [spendStep, h, if_pos, if_true, List.mem_cons]
      constructor
      · rintro (hmem | ⟨p, hp, hpk, hpne⟩)
        · exact Or.inl hmem
        · exact Or.inr ⟨p, Or.inr hp, hpk, hpne⟩
      · rintro (hmem | ⟨p, hp | hp, hpk, hpne⟩)
        · exact Or.inl hmem
        · subst hp
          exact absurd h hpne
        · exact Or.inr ⟨p, hp, hpk, hpne⟩
    · simp only [spendStep, h, if_false, mem_map_fst_addSpend, List.mem_cons]
      constructor
      · rintro (⟨hmem | hequ⟩ | ⟨p, hp, hpk, hpne⟩)
        · exact Or.inl hmem
        · exact Or.inr ⟨o, Or.inl rfl, hequ.symm, h⟩
        · exact Or.inr ⟨p, Or.inr hp, hpk, hpne⟩
      · rintro (hmem | ⟨p, hp | hp, hpk, hpne⟩)
        · exact Or.inl (Or.inl hmem)
        · subst hp
          exact Or.inl (Or.inr hpk.symm)
        · exact Or.inr ⟨p, hp, hpk, hpne⟩

theorem nodup_foldl_spendStep (l : List Order) :
    ∀ (acc : List (String × ℚ)), (acc.map Prod.fst).Nodup →
      ((l.foldl spendStep acc).map Prod.fst).Nodup := by
  induction l with
  | nil => exact fun acc h => h
  | cons o t ih =>
    intro acc hnd
    rw [List.foldl_cons]
    apply ih
    by_cases h : o.userId = ""
    · simpa [spendStep, h] using hnd
    · simpa [spendStep, h] using nodup_map_fst_addSpend acc o.userId o.total hnd

theorem customerSpending_keys_nodup (orders : List Order) :
    ((customerSpending orders).map Prod.fst).Nodup :=
  nodup_foldl_spendStep orders [] (by simp)

theorem mem_customerSpending_keys (orders : List Order) (k : String) :
    k ∈ (customerSpending orders).map Prod.fst
      ↔ ∃ o ∈ orders, o.userId = k ∧ ¬ o.userId = "" := by
  rw [customerSpending, mem_foldl_spendStep]
  simp

theorem mem_distinctCustomerIds (orders : List Order) (k : String) :
    k ∈ distinctCustomerIds orders ↔ ∃ o ∈ orders, o.userId = k ∧ ¬ o.userId = "" := by
  rw [distinctCustomerIds, List.mem_dedup, List.mem_filterMap]
  constructor
  · rintro ⟨o, ho, hsome⟩
    by_cases h : o.userId = ""
    · simp [h] at hsome
    · simp only [h, if_false, Option.some_inj] at hsome
      exact ⟨o, ho, hsome, h⟩
  · rintro ⟨o, ho, hk, hne⟩
    subst hk
    exact ⟨o, ho, by simp [hne]⟩

theorem customerSpending_length_eq (orders : List Order) :
    (customerSpending orders).length = (distinctCustomerIds orders).length := by
  have hnd2 : (distinctCustomerIds orders).Nodup := by
    unfold distinctCustomerIds
    exact List.nodup_dedup _
  have h1 : ((customerSpending orders).map Prod.fst).Perm (distinctCustomerIds orders) :=
    (List.perm_ext_iff_of_nodup (customerSpending_keys_nodup orders) hnd2).mpr
      (fun a => by rw [mem_customerSpending_keys, mem_distinctCustomerIds])
  have h2 := h1.length_eq
  simpa using h2

theorem sortedPairs_perm (orders : List Order) :
    ((customerSpending orders).mergeSort spendDescending).Perm (customerSpending orders) :=
  List.mergeSort_perm _ _

theorem sortedCustomers_nodup (orders : List Order) : (sortedCustomers orders).Nodup := by
  have h := ((sortedPairs_perm orders).map Prod.fst).symm
  exact h.nodup (customerSpending_keys_nodup orders)

theorem sortedCustomers_length (orders : List Order) :
    (sortedCustomers orders).length = (customerSpending orders).length := by
  rw [sortedCustomers, List.length_map]
  exact (sortedPairs_perm orders).length_eq

theorem spendOf_mem (orders : List Order) (p : String × ℚ)
    (hp : p ∈ customerSpending orders) : spendOf orders p.1 = p.2 := by
  have hsat : ∃ q, q ∈ customerSpending orders ∧ (fun r => decide (r.1 = p.1)) q = true :=
    ⟨p, hp, by simp⟩
  have hisSome : ((customerSpending orders).find? (fun r => decide (r.1 = p.1))).isSome := by
    rw [List.find?_isSome]
    simpa using hsat
  obtain ⟨q, hq⟩ := Option.isSome_iff_exists.mp hisSome
  have hq1 : q.1 = p.1 := by simpa using List.find?_some hq
  have hqmem : q ∈ customerSpending orders := List.mem_of_find?_eq_some hq
  have hqp : q = p :=
    List.inj_on_of_nodup_map (customerSpending_keys_nodup orders) hqmem hp hq1
  rw [spendOf, hq, hqp]

/-- Three slices `[0, hc)`, `[hc, hc+mc)`, `[hc+mc, ∞)` of a
duplicate-free list are pairwise disjoint and their lengths add up to the
whole list's length. -/
theorem slices_disjoint_and_length {α : Type} (l : List α) (hnd : l.Nodup) (hc mc : ℕ) :
    (l.take hc).Disjoint ((l.drop hc).take mc) ∧
    (l.take hc).Disjoint (l.drop (hc + mc)) ∧
    ((l.drop hc).take mc).Disjoint (l.drop (hc + mc)) ∧
    (l.take hc).length + ((l.drop hc).take mc).length + (l.drop (hc + mc)).length
      = l.length := by
  have hdisj0 : (l.take hc).Disjoint (l.drop hc) :=
    List.disjoint_take_drop hnd (le_refl hc)
  have hsub1 : (l.drop hc).take mc ⊆ l.drop hc := List.take_subset _ _
  have hdd : l.drop (hc + mc) = (l.drop hc).drop mc := by
    rw [List.drop_drop, Nat.add_comm]
  have hsub2 : l.drop (hc + mc) ⊆ l.drop hc := by
    rw [hdd]
    exact List.drop_subset _ _
  have hndd : (l.drop hc).Nodup := (List.drop_sublist _ _).nodup hnd
  refine ⟨?_, ?_, ?_, ?_⟩
  · exact fun a ha hb => hdisj0 ha (hsub1 hb)
  · exact fun a ha hb => hdisj0 ha (hsub2 hb)
  · rw [hdd]
    exact List.disjoint_take_drop hndd (le_refl mc)
  · simp only [List.length_take, List.length_drop]
    omega

/-- C2: the three spend tiers of `segmentCustomers` are pairwise disjoint
and their sizes add up to the number of distinct customers with at least
one order; and with exactly ten ranked customers of pairwise-distinct
spends, the high tier is exactly the top `ceil(10·0.2) = 2` customers by
lifetime spend — every high-tier member outspends every medium/low-tier
member, whatever the dollar amounts. -/
theorem segmentCustomers_spend_partition (orders : List Order) :
    ((segmentBySpending orders).highValue.Disjoint (segmentBySpending orders).mediumValue ∧
      (segmentBySpending orders).highValue.Disjoint (segmentBySpending orders).lowValue ∧
      (segmentBySpending orders).mediumValue.Disjoint (segmentBySpending orders).lowValue) ∧
    ((segmentBySpending orders).highValue.length
        + (segmentBySpending orders).mediumValue.length
        + (segmentBySpending orders).lowValue.length
      = (distinctCustomerIds orders).length) ∧
    ((customerSpending orders).length = 10 →
      ((customerSpending orders).map Prod.snd).Nodup →
      (segmentBySpending orders).highValue.length = 2 ∧
      ∀ uh ∈ (segmentBySpending orders).highValue,
        ∀ ul, (ul ∈ (segmentBySpending orders).mediumValue
            ∨ ul ∈ (segmentBySpending orders).lowValue) →
          spendOf orders ul < spendOf orders uh) := by
  have hhv : (segmentBySpending orders).highValue
      = (sortedCustomers orders).take (highValueCount (sortedCustomers orders).length) := rfl
  have hmv : (segmentBySpending orders).mediumValue
      = ((sortedCustomers orders).drop (highValueCount (sortedCustomers orders).length)).take
          (mediumValueCount (sortedCustomers orders).length) := rfl
  have hlv : (segmentBySpending orders).lowValue
      = (sortedCustomers orders).drop (highValueCount (sortedCustomers orders).length
          + mediumValueCount (sortedCustomers orders).length) := rfl
  obtain ⟨hd1, hd2, hd3, hlen⟩ := slices_disjoint_and_length (sortedCustomers orders)
    (sortedCustomers_nodup orders) (highValueCount (sortedCustomers orders).length)
    (mediumValueCount (sortedCustomers orders).length)
  refine ⟨⟨by rw [hhv, hmv]; exact hd1, by rw [hhv, hlv]; exact hd2,
    by rw [hmv, hlv]; exact hd3⟩, ?_, ?_⟩
  · rw [hhv, hmv, hlv, hlen, sortedCustomers_length, customerSpending_length_eq]
  · intro h10 hsnd
    have hslen : (sortedCustomers orders).length = 10 := by
      rw [sortedCustomers_length, h10]
    have hhc : highValueCount (sortedCustomers orders).length = 2 := by
      rw [hslen]
      norm_num [highValueCount]
    have hmc : mediumValueCount (sortedCustomers orders).length = 6 := by
      rw [hslen]
      norm_num [mediumValueCount]
    constructor
    · rw [hhv, hhc, List.length_take, hslen]
      omega
    · intro uh huh ul hul
      -- unpack the pairs behind the two user ids
      have hsortp := @List.sorted_mergeSort _ spendDescending
        (fun a b c h1 h2 => by
          simp only [spendDescending, decide_eq_true_eq] at h1 h2 ⊢
          exact le_trans h2 h1)
        (fun a b => by
          simp only [spendDescending, Bool.or_eq_true, decide_eq_true_eq]
          exact le_total b.2 a.2)
        (customerSpending orders)
      set sp := (customerSpending orders).mergeSort spendDescending with hsp
      have hsc : sortedCustomers orders = sp.map Prod.fst := rfl
      -- uh comes from a pair in `sp.take 2`
      rw [hhv, hhc, hsc, ← List.map_take] at huh
      obtain ⟨p, hpmem, hpeq⟩ := List.mem_map.mp huh
      -- ul comes from a pair in `sp.drop 2`
      have hulq : ∃ q ∈ sp.drop 2, q.1 = ul := by
        rcases hul with hm | hl
        · rw [hmv, hhc, hmc, hsc, ← List.map_drop, ← List.map_take] at hm
          obtain ⟨q, hqmem, hqeq⟩ := List.mem_map.mp hm
          exact ⟨q, List.take_subset _ _ hqmem, hqeq⟩
        · rw [hlv, hhc, hmc, hsc, ← List.map_drop] at hl
          obtain ⟨q, hqmem, hqeq⟩ := List.mem_map.mp hl
          have hdd : sp.drop (2 + 6) = (sp.drop 2).drop 6 := by
            rw [List.drop_drop, Nat.add_comm]
          rw [hdd] at hqmem
          exact ⟨q, List.drop_subset _ _ hqmem, hqeq⟩
      obtain ⟨q, hqmem, hqeq⟩ := hulq
      -- ordering across the take/drop cut
      have hpq_le : q.2 ≤ p.2 := by
        have hps := hsortp
        rw [← List.take_append_drop 2 sp, List.pairwise_append] at hps
        have := hps.2.2 p hpmem q hqmem
        simpa [spendDescending] using this
      -- distinct spends across the cut
      have hsnd_sp : (sp.map Prod.snd).Nodup :=
        (((sortedPairs_perm orders).map Prod.snd).symm).nodup hsnd
      have hpq_ne : q.2 ≠ p.2 := by
        intro hcontra
        have h := hsnd_sp
        rw [← List.take_append_drop 2 sp, List.map_append, List.nodup_append] at h
        exact h.2.2 (List.mem_map_of_mem Prod.snd hpmem)
          (hcontra ▸ List.mem_map_of_mem Prod.snd hqmem)
      -- translate back through the spend lookup
      have hpm : p ∈ customerSpending orders := (sortedPairs_perm orders).mem_iff.mp
        (List.take_subset _ _ hpmem)
      have hqm : q ∈ customerSpending orders := (sortedPairs_perm orders).mem_iff.mp
        (List.drop_subset _ _ hqmem)
      rw [← hpeq, ← hqeq, spendOf_mem orders p hpm, spendOf_mem orders q hqm]
      exact lt_of_le_of_ne hpq_le hpq_ne

unseal List.merge List.mergeSort in
/-- Witness for `segmentCustomers_spend_partition` on the ten-customer
scenario: the high tier has exactly 2 members, and the medium-tier
customer `u3` is outspent by the high-tier customer `u1`. -/
theorem segmentCustomers_spend_partition_witness :
    (segmentBySpending ordersTen).highValue.length = 2 ∧
    spendOf ordersTen "u3" < spendOf ordersTen "u1" := by
  have h := (segmentCustomers_spend_partition ordersTen).2.2 (by decide) (by decide)
  have hslen : (sortedCustomers ordersTen).length = 10 := by decide
  have hhv : (segmentBySpending ordersTen).highValue
      = (sortedCustomers ordersTen).take (highValueCount (sortedCustomers ordersTen).length) :=
    rfl
  have hmv : (segmentBySpending ordersTen).mediumValue
      = ((sortedCustomers ordersTen).drop (highValueCount (sortedCustomers ordersTen).length)).take
          (mediumValueCount (sortedCustomers ordersTen).length) := rfl
  have hhc : highValueCount 10 = 2 := by norm_num [highValueCount]
  have hmc : mediumValueCount 10 = 6 := by norm_num [mediumValueCount]
  have hm1 : "u1" ∈ (segmentBySpending ordersTen).highValue := by
    rw [hhv, hslen, hhc]
    decide
  have hm3 : "u3" ∈ (segmentBySpending ordersTen).mediumValue := by
    rw [hmv, hslen, hhc, hmc]
    decide
  exact ⟨h.1, h.2 "u1" hm1 "u3" (Or.inl hm3)⟩

theorem lastOrderDate_eq_none (orders : List Order) (uid : String)
    (h : ∀ o ∈ orders, ¬ o.userId = uid) : lastOrderDate orders uid = none := by
  have hfil : orders.filter (fun o => decide (o.userId = uid)) = [] := by
    rw [List.filter_eq_nil_iff]
    intro o ho
    simpa using h o ho
  rw [lastOrderDate, hfil]
  simp

/-- C8: a user who joined more than 30 days before `now` and has no
orders lands in none of the recency lists and in none of the spend tiers
(and the computation is total — nothing throws). -/
theorem zero_order_old_user_unsegmented (users : List User) (orders : List Order) (now : Int)
    (u : User) (hid : ∀ v ∈ users, v._id = u._id → v = u)
    (hord : ∀ o ∈ orders, ¬ o.userId = u._id)
    (hold : u.createdAt.ms < now - 30 * dayMs) :
    ¬ u._id ∈ (segmentByRecency users orders now).newUsers ∧
    ¬ u._id ∈ (segmentByRecency users orders now).atRisk ∧
    ¬ u._id ∈ (segmentByRecency users orders now).dormant ∧
    ¬ u._id ∈ (segmentBySpending orders).highValue ∧
    ¬ u._id ∈ (segmentBySpending orders).mediumValue ∧
    ¬ u._id ∈ (segmentBySpending orders).lowValue := by
  have hlast : lastOrderDate orders u._id = none := lastOrderDate_eq_none orders u._id hord
  have hnotkey : ¬ u._id ∈ sortedCustomers orders := by
    intro hmem
    rw [sortedCustomers] at hmem
    have hmem2 : u._id ∈ (customerSpending orders).map Prod.fst :=
      (((sortedPairs_perm orders).map Prod.fst).mem_iff).mp hmem
    obtain ⟨o, ho, hok, _⟩ := (mem_customerSpending_keys orders u._id).mp hmem2
    exact hord o ho hok
  refine ⟨?_, ?_, ?_, ?_, ?_, ?_⟩
  · intro hmem
    obtain ⟨v, hv, hveq⟩ := List.mem_map.mp hmem
    obtain ⟨hvu, hvcond⟩ := List.mem_filter.mp hv
    have hveq2 : v = u := hid v hvu hveq
    subst hveq2
    simp only [decide_eq_true_eq] at hvcond
    omega
  · intro hmem
    obtain ⟨v, hv, hveq⟩ := List.mem_map.mp hmem
    obtain ⟨hvu, hvcond⟩ := List.mem_filter.mp hv
    have hveq2 : v = u := hid v hvu hveq
    subst hveq2
    rw [hlast] at hvcond
    simp at hvcond
  · intro hmem
    obtain ⟨v, hv, hveq⟩ := List.mem_map.mp hmem
    obtain ⟨hvu, hvcond⟩ := List.mem_filter.mp hv
    have hveq2 : v = u := hid v hvu hveq
    subst hveq2
    rw [hlast] at hvcond
    simp at hvcond
  · exact fun hmem => hnotkey (List.take_subset _ _ hmem)
  · exact fun hmem => hnotkey (List.drop_subset _ _ (List.take_subset _ _ hmem))
  · exact fun hmem => hnotkey (List.drop_subset _ _ hmem)

/-- Witness for `zero_order_old_user_unsegmented`: a user who joined 40
days before `now`, no orders of their own (the store holds one order of a
different user). -/
theorem zero_order_old_user_unsegmented_witness :
    ¬ "w1" ∈ (segmentByRecency [⟨"w1", ⟨2024, 0, 0⟩⟩]
        [⟨"w2", 100, "delivered", 3369600000⟩] 3456000000).newUsers ∧
    ¬ "w1" ∈ (segmentByRecency [⟨"w1", ⟨2024, 0, 0⟩⟩]
        [⟨"w2", 100, "delivered", 3369600000⟩] 3456000000).atRisk ∧
    ¬ "w1" ∈ (segmentByRecency [⟨"w1", ⟨2024, 0, 0⟩⟩]
        [⟨"w2", 100, "delivered", 3369600000⟩] 3456000000).dormant ∧
    ¬ "w1" ∈ (segmentBySpending [⟨"w2", 100, "delivered", 3369600000⟩]).highValue ∧
    ¬ "w1" ∈ (segmentBySpending [⟨"w2", 100, "delivered", 3369600000⟩]).mediumValue ∧
    ¬ "w1" ∈ (segmentBySpending [⟨"w2", 100, "delivered", 3369600000⟩]).lowValue := by
  have h := zero_order_old_user_unsegmented [⟨"w1", ⟨2024, 0, 0⟩⟩]
    [⟨"w2", 100, "delivered", 3369600000⟩] 3456000000 ⟨"w1", ⟨2024, 0, 0⟩⟩
    (by decide) (by decide) (by decide)
  exact h

theorem horizonInc_mono (d : Option Int) {j k : Int} (h : j ≤ k) :
    horizonInc d j ≤ horizonInc d k := by
  cases d with
  | none => exact le_refl _
  | some v =>
    simp only [horizonInc]
    split_ifs with h1 h2
    · exact le_refl _
    · exact absurd (le_trans h1 h) h2
    · exact Nat.zero_le _
    · exact le_refl _

theorem bumpCohort_chain (c : CohortAcc) (d : Option Int)
    (hch : c.m1 ≤ c.m2 ∧ c.m2 ≤ c.m3 ∧ c.m3 ≤ c.m6 ∧ c.m6 ≤ c.m12) :
    CohortInv (bumpCohort c d) := by
  obtain ⟨h12, h23, h36, h612⟩ := hch
  refine ⟨by simp [bumpCohort], ?_, ?_, ?_, ?_⟩ <;>
    simp only [bumpCohort] <;>
    exact Nat.add_le_add (by assumption) (horizonInc_mono d (by norm_num))

theorem updateCohorts_inv (acc : List CohortAcc) (y : Int) (m : Nat) (d : Option Int)
    (hacc : ∀ c ∈ acc, CohortInv c) :
    ∀ c ∈ updateCohorts acc y m d, CohortInv c := by
  induction acc with
  | nil =>
    intro c hc
    simp only [updateCohorts, List.mem_singleton] at hc
    subst hc
    exact bumpCohort_chain _ _ (by simp [initCohort])
  | cons a t ih =>
    intro c hc
    by_cases hk : a.year = y ∧ a.month = m
    · rw [updateCohorts, if_pos hk] at hc
      rcases List.mem_cons.mp hc with hc1 | hc2
      · subst hc1
        have := hacc a (List.mem_cons_self _ _)
        exact bumpCohort_chain a d this.2
      · exact hacc c (List.mem_cons_of_mem _ hc2)
    · rw [updateCohorts, if_neg hk] at hc
      rcases List.mem_cons.mp hc with hc1 | hc2
      · subst hc1
        exact hacc c (List.mem_cons_self _ _)
      · exact ih (fun x hx => hacc x (List.mem_cons_of_mem _ hx)) c hc2

theorem analyzeRetentionCohorts_inv (users : List User) (orders : List Order) :
    ∀ c ∈ analyzeRetentionCohorts users orders, CohortInv c := by
  rw [analyzeRetentionCohorts]
  have hgen : ∀ (l : List User) (acc : List CohortAcc), (∀ c ∈ acc, CohortInv c) →
      ∀ c ∈ l.foldl (retentionStep orders) acc, CohortInv c := by
    intro l
    induction l with
    | nil => exact fun acc hacc => hacc
    | cons u t ih =>
      intro acc hacc
      rw [List.foldl_cons]
      exact ih _ (updateCohorts_inv acc _ _ _ hacc)
  exact hgen users [] (by simp)

theorem toFixed1_mono {a b : ℚ} (h : a ≤ b) : toFixed1 a ≤ toFixed1 b := by
  rw [toFixed1, toFixed1]
  have hr : round (a * 10) ≤ round (b * 10) := by
    rw [round_eq, round_eq]
    exact Int.floor_le_floor (by linarith)
  have hc : ((round (a * 10) : ℤ) : ℚ) ≤ ((round (b * 10) : ℤ) : ℚ) := by
    exact_mod_cast hr
  linarith

/-- C3: within every cohort row produced by `analyzeRetention`, the
retention percentages are non-decreasing in the horizon
(`month1 ≤ month2 ≤ month3 ≤ month6 ≤ month12`): horizon membership is
cumulative (`monthsSinceJoin ≤ k` counts toward every horizon `≥ k`). -/
theorem cohort_retention_monotone (users : List User) (orders : List Order) :
    ∀ row ∈ analyzeRetention users orders,
      row.month1 ≤ row.month2 ∧ row.month2 ≤ row.month3 ∧
      row.month3 ≤ row.month6 ∧ row.month6 ≤ row.month12 := by
  intro row hrow
  obtain ⟨c, hc, hceq⟩ := List.mem_map.mp hrow
  obtain ⟨hT, h12, h23, h36, h612⟩ := analyzeRetentionCohorts_inv users orders c hc
  have hT0 : (0 : ℚ) < (c.totalUsers : ℚ) := by
    exact_mod_cast Nat.lt_of_lt_of_le Nat.zero_lt_one hT
  subst hceq
  have hstep : ∀ x y : ℕ, x ≤ y →
      toFixed1 ((x : ℚ) / (c.totalUsers : ℚ) * 100)
        ≤ toFixed1 ((y : ℚ) / (c.totalUsers : ℚ) * 100) := by
    intro x y hxy
    apply toFixed1_mono
    have hxy_q : (x : ℚ) ≤ (y : ℚ) := by exact_mod_cast hxy
    have hdiv : (x : ℚ) / (c.totalUsers : ℚ) ≤ (y : ℚ) / (c.totalUsers : ℚ) :=
      div_le_div_of_nonneg_right hxy_q hT0.le
    linarith
  exact ⟨hstep _ _ h12, hstep _ _ h23, hstep _ _ h36, hstep _ _ h612⟩

/-- C7: every cohort row returned by `analyzeRetention` has
`totalUsers ≥ 1` — a cohort object is created only when a user is being
counted into it — so the five percentage divisions are never by zero. -/
theorem cohort_rows_nonempty (users : List User) (orders : List Order) :
    ∀ row ∈ analyzeRetention users orders, 1 ≤ row.totalUsers := by
  intro row hrow
  obtain ⟨c, hc, hceq⟩ := List.mem_map.mp hrow
  subst hceq
  exact (analyzeRetentionCohorts_inv users orders c hc).1

/-- Witness for `cohort_retention_monotone`: one user who joined at epoch
0 and ordered immediately — the single cohort row is `(2024-01, 1 user,
100% at every horizon)`, a (degenerate but concrete) non-decreasing
chain. -/
theorem cohort_retention_monotone_witness :
    (⟨2024, 0, 1, 100, 100, 100, 100, 100⟩ : CohortRow).month1
        ≤ (⟨2024, 0, 1, 100, 100, 100, 100, 100⟩ : CohortRow).month2 ∧
    (⟨2024, 0, 1, 100, 100, 100, 100, 100⟩ : CohortRow).month2
        ≤ (⟨2024, 0, 1, 100, 100, 100, 100, 100⟩ : CohortRow).month3 ∧
    (⟨2024, 0, 1, 100, 100, 100, 100, 100⟩ : CohortRow).month3
        ≤ (⟨2024, 0, 1, 100, 100, 100, 100, 100⟩ : CohortRow).month6 ∧
    (⟨2024, 0, 1, 100, 100, 100, 100, 100⟩ : CohortRow).month6
        ≤ (⟨2024, 0, 1, 100, 100, 100, 100, 100⟩ : CohortRow).month12 := by
  have hrows : analyzeRetention [⟨"r1", ⟨2024, 0, 0⟩⟩] [⟨"r1", 100, "delivered", 0⟩]
      = [⟨2024, 0, 1, 100, 100, 100, 100, 100⟩] := by
    have hd : monthsSinceJoin 0 0 = 0 := by decide
    simp [analyzeRetention, analyzeRetentionCohorts, retentionStep, updateCohorts,
      bumpCohort, initCohort, firstOrderDateOf, horizonInc, hd, List.filter_cons,
      List.filter_nil]
    norm_num [toFixed1, round_eq]
  exact cohort_retention_monotone [⟨"r1", ⟨2024, 0, 0⟩⟩] [⟨"r1", 100, "delivered", 0⟩]
    ⟨2024, 0, 1, 100, 100, 100, 100, 100⟩ (by rw [hrows]; exact List.mem_singleton.mpr rfl)

/-- Witness for `cohort_rows_nonempty`: a single user with no orders
forms a one-member cohort with all-zero retention. -/
theorem cohort_rows_nonempty_witness :
    1 ≤ (⟨2023, 5, 1, 0, 0, 0, 0, 0⟩ : CohortRow).totalUsers := by
  have hrows : analyzeRetention [⟨"r2", ⟨2023, 5, 0⟩⟩] []
      = [⟨2023, 5, 1, 0, 0, 0, 0, 0⟩] := by
    simp [analyzeRetention, analyzeRetentionCohorts, retentionStep, updateCohorts,
      bumpCohort, initCohort, firstOrderDateOf, horizonInc, List.filter_nil]
    norm_num [toFixed1, round_eq]
  exact cohort_rows_nonempty [⟨"r2", ⟨2023, 5, 0⟩⟩] [] ⟨2023, 5, 1, 0, 0, 0, 0, 0⟩
    (by rw [hrows]; exact List.mem_singleton.mpr rfl)

theorem pA_nil (b : Bool) (field : List Char) (row : List (List Char))
    (acc : List (List (List Char))) :
    parseCSVAux [] b field row acc = acc ++ [row ++ [field]] := by
  cases b <;> simp [parseCSVAux]

theorem pA_comma (cs : List Char) (field : List Char) (row : List (List Char))
    (acc : List (List (List Char))) :
    parseCSVAux (',' :: cs) false field row acc
      = parseCSVAux cs false [] (row ++ [field]) acc := by
  simp [parseCSVAux]

theorem pA_newline (cs : List Char) (field : List Char) (row : List (List Char))
    (acc : List (List (List Char))) :
    parseCSVAux ('\n' :: cs) false field row acc
      = parseCSVAux cs false [] [] (acc ++ [row ++ [field]]) := by
  simp [parseCSVAux]

theorem pA_quote_open (cs : List Char) (field : List Char) (row : List (List Char))
    (acc : List (List (List Char))) :
    parseCSVAux ('"' :: cs) false field row acc = parseCSVAux cs true field row acc := by
  simp [parseCSVAux]

theorem pA_plain (c : Char) (cs : List Char) (field : List Char) (row : List (List Char))
    (acc : List (List (List Char))) (h1 : ¬ c = ',') (h2 : ¬ c = '\n') (h3 : ¬ c = '"') :
    parseCSVAux (c :: cs) false field row acc
      = parseCSVAux cs false (field ++ [c]) row acc := by
  simp [parseCSVAux, h1, h2, h3]

theorem pQ_escaped (cs : List Char) (field : List Char) (row : List (List Char))
    (acc : List (List (List Char))) :
    parseCSVAux ('"' :: '"' :: cs) true field row acc
      = parseCSVAux cs true (field ++ ['"']) row acc := by
  simp [parseCSVAux]

theorem pQ_close (c : Char) (cs : List Char) (field : List Char) (row : List (List Char))
    (acc : List (List (List Char))) (h : ¬ c = '"') :
    parseCSVAux ('"' :: c :: cs) true field row acc
      = parseCSVAux (c :: cs) false field row acc := by
  simp [parseCSVAux, h]

theorem pQ_close_eof (field : List Char) (row : List (List Char))
    (acc : List (List (List Char))) :
    parseCSVAux ['"'] true field row acc = parseCSVAux [] false field row acc := by
  simp [parseCSVAux]

theorem pQ_char (c : Char) (cs : List Char) (field : List Char) (row : List (List Char))
    (acc : List (List (List Char))) (h : ¬ c = '"') :
    parseCSVAux (c :: cs) true field row acc
      = parseCSVAux cs true (field ++ [c]) row acc := by
  simp [parseCSVAux, h]

theorem mem_doubleQuotes (v : List Char) (c : Char) : c ∈ doubleQuotes v ↔ c ∈ v := by
  induction v with
  | nil => simp [doubleQuotes]
  | cons a t ih =>
    by_cases h : a = '"'
    · subst h
      simp [doubleQuotes, ih]
    · simp [doubleQuotes, h, ih]

theorem doubleQuotes_eq_self (v : List Char) (h : ¬ '"' ∈ v) : doubleQuotes v = v := by
  induction v with
  | nil => rfl
  | cons a t ih =>
    have ha : ¬ a = '"' := fun hc => h (hc ▸ List.mem_cons_self a t)
    rw [doubleQuotes, if_neg ha, ih (fun hc => h (List.mem_cons_of_mem a hc))]

theorem needsQuoting_eq_false (s : List Char) :
    needsQuoting s = false ↔ ∀ c ∈ s, ¬ c = ',' ∧ ¬ c = '"' ∧ ¬ c = '\n' := by
  rw [needsQuoting]
  simp only [List.any_eq_false, Bool.or_eq_true, decide_eq_true_eq, not_or]
  constructor
  · intro h c hc
    have hx := h c hc
    tauto
  · intro h c hc
    have hx := h c hc
    tauto

theorem escapeField_eq_self (s : List Char) (h : needsQuoting s = false) :
    escapeField s = s := by
  have hs := (needsQuoting_eq_false s).mp h
  have hnq : ¬ '"' ∈ s := fun hc => (hs '"' hc).2.1 rfl
  have hdq : doubleQuotes s = s := doubleQuotes_eq_self s hnq
  rw [escapeField, hdq, h]
  simp

/-- Consuming a run of plain characters in the unquoted state appends
them to the current cell. -/
theorem pA_run (v : List Char) (hv : ∀ c ∈ v, ¬ c = ',' ∧ ¬ c = '"' ∧ ¬ c = '\n') :
    ∀ (rest field : List Char) (row : List (List Char)) (acc : List (List (List Char))),
      parseCSVAux (v ++ rest) false field row acc
        = parseCSVAux rest false (field ++ v) row acc := by
  induction v with
  | nil => intro rest field row acc; simp
  | cons c t ih =>
    intro rest field row acc
    obtain ⟨h1, h2, h3⟩ := hv c (List.mem_cons_self c t)
    rw [List.cons_append, pA_plain c (t ++ rest) field row acc h1 h3 h2,
      ih (fun x hx => hv x (List.mem_cons_of_mem c hx)) rest (field ++ [c]) row acc,
      List.append_assoc]
    rfl

/-- Consuming a doubled-quotes body followed by the closing quote, in the
quoted state, appends the original text to the current cell and returns
to the unquoted state. -/
theorem pQ_body (v : List Char) :
    ∀ (rest field : List Char) (row : List (List Char)) (acc : List (List (List Char))),
      ¬ rest.head? = some '"' →
      parseCSVAux (doubleQuotes v ++ ('"' :: rest)) true field row acc
        = parseCSVAux rest false (field ++ v) row acc := by
  induction v with
  | nil =>
    intro rest field row acc hrest
    rw [doubleQuotes, List.nil_append, List.append_nil]
    cases rest with
    | nil => rw [pQ_close_eof]
    | cons c cs =>
      have hc : ¬ c = '"' := fun h => hrest (by rw [h]; rfl)
      rw [pQ_close c cs field row acc hc]
  | cons a t ih =>
    intro rest field row acc hrest
    by_cases ha : a = '"'
    · subst ha
      rw [doubleQuotes, if_pos rfl, List.cons_append, List.cons_append, pQ_escaped,
        ih rest (field ++ ['"']) row acc hrest, List.append_assoc]
      rfl
    · rw [doubleQuotes, if_neg ha, List.cons_append,
        pQ_char a (doubleQuotes t ++ ('"' :: rest)) field row acc ha,
        ih rest (field ++ [a]) row acc hrest, List.append_assoc]
      rfl

/-- Consuming one escaped cell appends the cell's original text to the
current cell text. -/
theorem pA_cell (v : List Char) (rest field : List Char) (row : List (List Char))
    (acc : List (List (List Char))) (hrest : ¬ rest.head? = some '"') :
    parseCSVAux (escapeField v ++ rest) false field row acc
      = parseCSVAux rest false (field ++ v) row acc := by
  rw [escapeField]
  by_cases hq : needsQuoting (doubleQuotes v) = true
  · rw [if_pos hq]
    rw [List.cons_append, List.append_assoc]
    rw [pA_quote_open]
    exact pQ_body v rest field row acc hrest
  · have hqf : needsQuoting (doubleQuotes v) = false := by
      cases h : needsQuoting (doubleQuotes v)
      · rfl
      · exact absurd h hq
    rw [if_neg hq]
    have hspec := (needsQuoting_eq_false _).mp hqf
    have hnq : ¬ '"' ∈ v := by
      intro hc
      exact (hspec '"' ((mem_doubleQuotes v '"').mpr hc)).2.1 rfl
    have hdq : doubleQuotes v = v := doubleQuotes_eq_self v hnq
    rw [hdq] at hspec ⊢
    exact pA_run v (fun c hc => ⟨(hspec c hc).1, (hspec c hc).2.1, (hspec c hc).2.2⟩)
      rest field row acc

/-- Consuming one rendered, newline-terminated row pushes the row's
cells as a finished row. -/
theorem pA_row_newline (fs : List (List Char)) (hne : ¬ fs = []) :
    ∀ (rest : List Char) (row : List (List Char)) (acc : List (List (List Char))),
      parseCSVAux (joinSep [','] (fs.map escapeField) ++ ('\n' :: rest)) false [] row acc
        = parseCSVAux rest false [] [] (acc ++ [row ++ fs]) := by
  induction fs with
  | nil => exact absurd rfl hne
  | cons f t ih =>
    intro rest row acc
    cases t with
    | nil =>
      rw [List.map_cons, List.map_nil, joinSep,
        pA_cell f ('\n' :: rest) [] row acc (by simp), List.nil_append, pA_newline]
    | cons f2 t2 =>
      have hshape : joinSep [','] ((f :: f2 :: t2).map escapeField) ++ ('\n' :: rest)
          = escapeField f
              ++ (',' :: (joinSep [','] ((f2 :: t2).map escapeField) ++ ('\n' :: rest))) := by
        simp [joinSep]
      rw [hshape, pA_cell f _ [] row acc (by simp), List.nil_append, pA_comma,
        ih (by simp) rest (row ++ [f]) acc, List.append_assoc]
      rfl

/-- Consuming one rendered row at the end of the text pushes the row's
cells as the final row. -/
theorem pA_row_eof (fs : List (List Char)) (hne : ¬ fs = []) :
    ∀ (row : List (List Char)) (acc : List (List (List Char))),
      parseCSVAux (joinSep [','] (fs.map escapeField)) false [] row acc
        = acc ++ [row ++ fs] := by
  induction fs with
  | nil => exact absurd rfl hne
  | cons f t ih =>
    intro row acc
    cases t with
    | nil =>
      rw [List.map_cons, List.map_nil, joinSep, ← List.append_nil (escapeField f),
        pA_cell f [] [] row acc (by simp), pA_nil, List.nil_append]
    | cons f2 t2 =>
      have hshape : joinSep [','] ((f :: f2 :: t2).map escapeField)
          = escapeField f ++ (',' :: joinSep [','] ((f2 :: t2).map escapeField)) := by
        simp [joinSep]
      rw [hshape, pA_cell f _ [] row acc (by simp), List.nil_append, pA_comma,
        ih (by simp) (row ++ [f]) acc, List.append_assoc]
      rfl

/-- Parsing the newline-joined rendering of a non-empty list of rows
appends exactly those rows. -/
theorem pA_rows (rows : List (List (List Char))) (hne : ¬ rows = [])
    (hrne : ∀ r ∈ rows, ¬ r = []) :
    ∀ acc : List (List (List Char)),
      parseCSVAux (joinSep ['\n'] (rows.map fun fs => joinSep [','] (fs.map escapeField)))
          false [] [] acc
        = acc ++ rows := by
  induction rows with
  | nil => exact absurd rfl hne
  | cons r t ih =>
    intro acc
    cases t with
    | nil =>
      rw [List.map_cons, List.map_nil, joinSep,
        pA_row_eof r (hrne r (List.mem_cons_self _ _)) [] acc, List.nil_append]
    | cons r2 t2 =>
      have hshape : joinSep ['\n']
            ((r :: r2 :: t2).map fun fs => joinSep [','] (fs.map escapeField))
          = joinSep [','] (r.map escapeField)
              ++ ('\n' :: joinSep ['\n']
                ((r2 :: t2).map fun fs => joinSep [','] (fs.map escapeField))) := by
        simp [joinSep]
      rw [hshape, pA_row_newline r (hrne r (List.mem_cons_self _ _)) _ [] acc,
        ih (by simp) (fun x hx => hrne x (List.mem_cons_of_mem _ hx)) (acc ++ [[] ++ r])]
      simp

theorem getField_mem (r : CSVRecord) (hnd : (r.map Prod.fst).Nodup) (p : Field × Field)
    (hp : p ∈ r) : getField r p.1 = p.2 := by
  have hisSome : (r.find? (fun q => decide (q.1 = p.1))).isSome := by
    rw [List.find?_isSome]
    exact ⟨p, hp, by simp⟩
  obtain ⟨q, hq⟩ := Option.isSome_iff_exists.mp hisSome
  have hq1 : q.1 = p.1 := by simpa using List.find?_some hq
  have hqmem : q ∈ r := List.mem_of_find?_eq_some hq
  have hqp : q = p := List.inj_on_of_nodup_map hnd hqmem hp hq1
  rw [getField, hq, hqp]

theorem getField_values (r : CSVRecord) (hnd : (r.map Prod.fst).Nodup) :
    (r.map Prod.fst).map (fun h => getField r h) = r.map Prod.snd := by
  rw [List.map_map]
  exact List.map_congr_left fun p hp => getField_mem r hnd p hp

/-- C6: for a non-empty list of flat records (every record has the same
field names as the first, in order; names are distinct and contain no
comma/quote/newline), `convertToCSV` renders a header row followed by one
escaped comma-joined row per record, and a standard CSV parse of the
result recovers exactly the header names and every record's field values
— same row count, same values, as in the JSON export. -/
theorem convertToCSV_roundtrip (r0 : CSVRecord) (rest : List CSVRecord)
    (hn : ¬ r0 = []) (hnd : (r0.map Prod.fst).Nodup)
    (hflat : ∀ r ∈ rest, r.map Prod.fst = r0.map Prod.fst)
    (hhead : ∀ h ∈ r0.map Prod.fst, needsQuoting h = false) :
    parseCSV (convertToCSV (r0 :: rest))
      = (r0.map Prod.fst) :: (r0 :: rest).map (fun r => r.map Prod.snd) := by
  have hheaders_esc : (r0.map Prod.fst).map escapeField = r0.map Prod.fst := by
    have h1 : (r0.map Prod.fst).map escapeField = (r0.map Prod.fst).map id :=
      List.map_congr_left fun h hh => escapeField_eq_self h (hhead h hh)
    rw [h1, List.map_id]
  have htarget : (((r0.map Prod.fst) ::
        (r0 :: rest).map fun r => (r0.map Prod.fst).map fun h => getField r h).map
          fun fs => joinSep [','] (fs.map escapeField))
      = joinSep [','] (r0.map Prod.fst) :: (r0 :: rest).map fun r =>
          joinSep [','] ((r0.map Prod.fst).map fun h => escapeField (getField r h)) := by
    simp only [List.map_cons]
    rw [hheaders_esc]
    simp only [List.map_map, Function.comp_def]
  have hconv : convertToCSV (r0 :: rest)
      = joinSep ['\n'] ((((r0.map Prod.fst) ::
          (r0 :: rest).map fun r => (r0.map Prod.fst).map fun h => getField r h)).map
            fun fs => joinSep [','] (fs.map escapeField)) := by
    rw [htarget]
    rfl
  have hrowsne : ∀ fs ∈ ((r0.map Prod.fst) ::
      (r0 :: rest).map fun r => (r0.map Prod.fst).map fun h => getField r h), ¬ fs = [] := by
    intro fs hfs
    rcases List.mem_cons.mp hfs with hfs1 | hfs2
    · subst hfs1
      simpa using hn
    · obtain ⟨r, _, hreq⟩ := List.mem_map.mp hfs2
      rw [← hreq]
      simpa using hn
  rw [parseCSV, hconv, pA_rows _ (by simp) hrowsne []]
  rw [List.nil_append]
  congr 1
  apply List.map_congr_left
  intro r hr
  have hfst : r.map Prod.fst = r0.map Prod.fst := by
    rcases List.mem_cons.mp hr with hr1 | hr2
    · rw [hr1]
    · exact hflat r hr2
  have hndr : (r.map Prod.fst).Nodup := by
    rw [hfst]
    exact hnd
  rw [← hfst]
  exact getField_values r hndr

/-- Witness for `convertToCSV_roundtrip`: two records whose values
exercise the comma, quote and newline escaping. -/
theorem convertToCSV_roundtrip_witness :
    parseCSV (convertToCSV
      [[("name".data, "Wid,get".data), ("note".data, "say \"hi\"\nok".data)],
       [("name".data, "Bolt".data), ("note".data, "plain".data)]])
      = [["name".data, "note".data],
         ["Wid,get".data, "say \"hi\"\nok".data],
         ["Bolt".data, "plain".data]] := by
  have h := convertToCSV_roundtrip
    [("name".data, "Wid,get".data), ("note".data, "say \"hi\"\nok".data)]
    [[("name".data, "Bolt".data), ("note".data, "plain".data)]]
    (by decide) (by decide) (by decide) (by decide)
  rw [h]
  rfl

end Electohub
